import Mathlib

/-!
# Verification of the role-based-auth user service

Shallow embedding of the user-management service: the Mongoose-backed
`UserService` (CRUD over user records with a username-uniqueness check),
the `AuthService` (credential validation, login/token issuance, password
hashing passthroughs), the passport strategies (`LocalStrategy`,
`JwtStrategy`) and the `RolesGuard`, together with the HTTP controller
behaviour that the spec's claims mention.

The document store is modelled as a list of records; `_id`s are opaque
strings assigned by the store.  The bcrypt hash and compare primitives and
the JWT sign/verify pair are external libraries, so they enter as function
parameters (`hash : String → String`, `compare : String → String → Bool`);
the token service is modelled as a faithful carrier of its claims payload
(sign/verify roundtrip preserves the payload).
-/

namespace RoleAuth

/-- Error taxonomy surfaced to the HTTP boundary (`NotFoundException`,
`ConflictException`, `UnauthorizedException`). -/
inductive Err where
  | notFound
  | conflict
  | unauthorized
  deriving DecidableEq, Repr

/-- A persisted user record (`user.schema.ts`): `_id` assigned by the store,
`username`, `password` (the stored hash), `roles` (schema default
`["user"]`). -/
structure UserRec where
  id : String
  username : String
  password : String
  roles : List String
  deriving DecidableEq, Repr

/-- A request body for create/patch (`Partial<User>`): each field may be
absent.  An absent field and the empty string are both falsy in the source's
`if (user.field)` guards. -/
structure PartialUser where
  username : Option String
  password : Option String
  roles : Option (List String)
  deriving DecidableEq, Repr

/-- `userModel.findOne({ username })`: first stored record with the given
username. -/
def findOne (store : List UserRec) (username : String) : Option UserRec :=
  store.find? (fun r => r.username == username)

/-- `userModel.findById(id)`: first stored record with the given `_id`. -/
def findById (store : List UserRec) (id : String) : Option UserRec :=
  store.find? (fun r => r.id == id)

/-- The outcomes of `UserService.deleteUserById`: the `NotFoundException`
it throws itself, and the driver-level `CastError` — `userModel.exists`
rejects when the `_id` filter value cannot be cast to an `ObjectId`, and
`deleteUserById` (unlike `getUserById`, which guards with
`Types.ObjectId.isValid` first) does not catch it, so the fault propagates
past the `NotFoundException` taxonomy to the generic error boundary. -/
inductive DeleteErr where
  | notFound
  | castError
  deriving DecidableEq, Repr

/-- `userModel.exists({ _id: id })` at the driver level: mongoose first
casts the filter value to an `ObjectId` (`isValid` is the external
well-formedness predicate, `Types.ObjectId.isValid`); a malformed id makes
the query reject with a `CastError`, otherwise it reports whether a record
with the id exists. -/
def existsIdDriver (isValid : String → Bool) (store : List UserRec)
    (id : String) : Except DeleteErr Bool :=
  if isValid id then .ok (store.any (fun r => r.id == id))
  else .error .castError

/-- `document.save()` after mutating the document found by `findById`:
replaces the first record with the given `_id`. -/
def saveById : List UserRec → String → UserRec → List UserRec
  | [], _, _ => []
  | r :: rs, id, nr => if r.id == id then nr :: rs else r :: saveById rs id nr

/-- `userModel.findByIdAndDelete(id)`: removes the first record with the
given `_id`. -/
def deleteById (store : List UserRec) (id : String) : List UserRec :=
  store.eraseP (fun r => r.id == id)

/-- The username-uniqueness invariant of §3: no two live records share a
`username`. -/
def uniqueUsernames (store : List UserRec) : Prop :=
  (store.map (fun r => r.username)).Nodup

/-- Store well-formedness: `_id` is the store-assigned primary key, so no
two records share one. -/
def uniqueIds (store : List UserRec) : Prop :=
  (store.map (fun r => r.id)).Nodup

instance (store : List UserRec) : Decidable (uniqueUsernames store) := by
  unfold uniqueUsernames
  infer_instance

instance (store : List UserRec) : Decidable (uniqueIds store) := by
  unfold uniqueIds
  infer_instance

/-! ## RolesGuard (roles.guard.ts) -/

/-- The identity attached to the request by `JwtStrategy.validate`; `roles`
is optional to mirror the guard's `user?.roles?` optional chaining. -/
structure ReqUser where
  userId : String
  username : String
  roles : Option (List String)
  deriving DecidableEq, Repr

/-- `RolesGuard.canActivate`: reads the `roles` metadata
(`none` = no `@HasRoles` declaration at all, `some rs` = a declared list,
possibly empty).  `if (!requiredRoles) return true;` — note that in the
source an empty declared array is truthy, so only an absent declaration
short-circuits to allow; otherwise
`requiredRoles.some((role) => user?.roles?.includes(role))`. -/
def canActivate (requiredRoles : Option (List String)) (user : Option ReqUser) :
    Bool :=
  match requiredRoles with
  | none => true
  | some roles =>
    roles.any fun role =>
      match user with
      | none => false
      | some u =>
        match u.roles with
        | none => false
        | some rs => rs.contains role

/-! ## UserService (user.service.ts) -/

/-- `UserService.getAllUsers`: `userModel.find()` — the full records,
passwords included. -/
def getAllUsers (store : List UserRec) : List UserRec :=
  store

/-- `UserService.getUserById`: rejects a malformed `_id`
(`Types.ObjectId.isValid`, an external library predicate passed in as
`isValid`) with `NotFound`, then looks the record up and rejects an absent
one with `NotFound`. -/
def getUserById (isValid : String → Bool) (store : List UserRec) (id : String) :
    Except Err UserRec :=
  if !(isValid id) then .error .notFound
  else
    match findById store id with
    | none => .error .notFound
    | some u => .ok u

/-- `UserService.getUserByUsername`: `findOne({ username })`, `NotFound`
when absent. -/
def getUserByUsername (store : List UserRec) (username : String) :
    Except Err UserRec :=
  match findOne store username with
  | none => .error .notFound
  | some u => .ok u

/-- A create request body: `username` and `password` are schema-required;
`roles` may or may not be supplied by the caller. -/
structure Candidate where
  username : String
  password : String
  roles : Option (List String)
  deriving DecidableEq, Repr

/-- `UserService.createUser`: checks `findOne({ username })` and raises
`Conflict` before anything else; otherwise hashes the password and inserts
`{ username, password: hashedPassword }` — the candidate's `roles` are not
passed, so the schema default `["user"]` applies.  The second component is
the list of plaintexts handed to `authService.hashPassword`, recording
which hash calls the run made. -/
def createUser (hash : String → String) (store : List UserRec) (newId : String)
    (cand : Candidate) : Except Err (List UserRec) × List String :=
  match findOne store cand.username with
  | some _ => (.error .conflict, [])
  | none =>
    let hashedPassword := hash cand.password
    (.ok (store ++ [{ id := newId, username := cand.username,
                      password := hashedPassword, roles := ["user"] }]),
     [cand.password])

/-- The `username` block shared by PUT and PATCH:
`if (user.username && user.username !== userDb.username)` — a truthy
(present, non-empty) username differing from the stored one is re-checked
for uniqueness (`Conflict` on collision) and assigned; otherwise the
document is untouched.  An absent field and `""` are both falsy. -/
def applyUsername (store : List UserRec) (userDb : UserRec)
    (username : Option String) : Except Err UserRec :=
  match username with
  | none => .ok userDb
  | some nu =>
    if nu ≠ "" ∧ nu ≠ userDb.username then
      match findOne store nu with
      | some _ => .error .conflict
      | none => .ok { userDb with username := nu }
    else .ok userDb

/-- The `password` block shared by PUT and PATCH: `if (user.password)` — a
truthy password is re-hashed and assigned. -/
def applyPassword (hash : String → String) (password : Option String)
    (u : UserRec) : UserRec :=
  match password with
  | none => u
  | some p => if p ≠ "" then { u with password := hash p } else u

/-- The `roles` block shared by PUT and PATCH: `if (user.roles)` — any
supplied array (including the empty one, which is truthy) overwrites. -/
def applyRoles (roles : Option (List String)) (u : UserRec) : UserRec :=
  match roles with
  | none => u
  | some rs => { u with roles := rs }

/-- `UserService.updateUserById` (PUT): `NotFound` when the id is absent;
then the `username` (with uniqueness re-check), `password` (re-hash) and
`roles` blocks in sequence on the found document, then `userDb.save()`. -/
def updateUserById (hash : String → String) (store : List UserRec) (id : String)
    (user : PartialUser) : Except Err (List UserRec) :=
  match findById store id with
  | none => .error .notFound
  | some userDb =>
    match applyUsername store userDb user.username with
    | .error e => .error e
    | .ok u1 =>
      .ok (saveById store id (applyRoles user.roles
        (applyPassword hash user.password u1)))

/-- `UserService.patchUserById` (PATCH): the source duplicates the PUT
logic verbatim — only truthy provided fields are considered, then
`userDb.save()`. -/
def patchUserById (hash : String → String) (store : List UserRec) (id : String)
    (partialUser : PartialUser) : Except Err (List UserRec) :=
  match findById store id with
  | none => .error .notFound
  | some userDb =>
    match applyUsername store userDb partialUser.username with
    | .error e => .error e
    | .ok u1 =>
      .ok (saveById store id (applyRoles partialUser.roles
        (applyPassword hash partialUser.password u1)))

/-- `UserService.deleteUserById`: `const userExists = await
this.userModel.exists({ _id: id })` — a rejection of that promise (the
`CastError` on a malformed id) propagates uncaught; then
`NotFoundException` when no record matches, otherwise
`findByIdAndDelete(id)`. -/
def deleteUserById (isValid : String → Bool) (store : List UserRec)
    (id : String) : Except DeleteErr (List UserRec) :=
  match existsIdDriver isValid store id with
  | .error e => .error e
  | .ok userExists =>
    if userExists then .ok (deleteById store id)
    else .error .notFound

/-! ## AuthService (auth.service.ts) and the passport strategies -/

/-- The public projection of a record: `const { password, ...result } =
user` — everything but the stored password. -/
structure PublicUser where
  id : String
  username : String
  roles : List String
  deriving DecidableEq, Repr

/-- Strips the password from a record. -/
def toPublic (u : UserRec) : PublicUser :=
  { id := u.id, username := u.username, roles := u.roles }

/-- `AuthService.validateUser`: `getUserByUsername` (its `NotFound`
propagates), then `comparePassword` (bcrypt, passed in as `compare`):
the password-less projection on match, `null` on mismatch. -/
def validateUser (compare : String → String → Bool) (store : List UserRec)
    (username password : String) : Except Err (Option PublicUser) :=
  match getUserByUsername store username with
  | .error e => .error e
  | .ok user =>
    if compare password user.password then .ok (some (toPublic user))
    else .ok none

/-- The claims payload `AuthService.login` signs:
`{ username: userDB.username, sub: userDB._id, roles: userDB.roles }`. -/
structure JwtPayload where
  username : String
  sub : String
  roles : List String
  deriving DecidableEq, Repr

/-- `AuthService.login(body)`: looks the user up by `body.username` only —
`body.password` is never read — and signs the claims payload.  The token
service is an external signed-claims carrier, so the token is modelled by
its (tamper-evident) payload. -/
def login (store : List UserRec) (username : String) (_password : String) :
    Except Err JwtPayload :=
  match getUserByUsername store username with
  | .error e => .error e
  | .ok userDB =>
    .ok { username := userDB.username, sub := userDB.id, roles := userDB.roles }

/-- `JwtStrategy.validate(payload)`: the identity the token check attaches
to the request. -/
def jwtValidate (payload : JwtPayload) : ReqUser :=
  { userId := payload.sub, username := payload.username,
    roles := some payload.roles }

/-- `LocalStrategy.validate`: `validateUser`, `Unauthorized` on `null`. -/
def localValidate (compare : String → String → Bool) (store : List UserRec)
    (username password : String) : Except Err PublicUser :=
  match validateUser compare store username password with
  | .error e => .error e
  | .ok none => .error .unauthorized
  | .ok (some user) => .ok user

/-! ## UserController GET / (user.controller.ts) -/

/-- An HTTP response at the external boundary: status code and the record
list that `res.json(users)` serialises. -/
structure HttpListResponse where
  status : Nat
  body : List UserRec
  deriving DecidableEq, Repr

/-- `UserController.getAllUsers`: 204 with the (empty) list when no users
exist, otherwise 200 with the records exactly as the service returned
them — `res.json(users)` serialises the full documents. -/
def controllerGetAllUsers (store : List UserRec) : HttpListResponse :=
  let users := getAllUsers store
  if users.length == 0 then { status := 204, body := users }
  else { status := 200, body := users }

/-- Follows the spec's words (§4.3), for comparison with the code: the
records `listAll` exposes at the HTTP boundary "have the password hash
redacted from every record before exposure", i.e. no exposed record still
carries a stored password hash. -/
def spec_listAll_redacted (store : List UserRec) : Prop :=
  ∀ r ∈ (controllerGetAllUsers store).body, ∀ u ∈ store, r.password ≠ u.password

instance (store : List UserRec) : Decidable (spec_listAll_redacted store) := by
  unfold spec_listAll_redacted
  infer_instance

/-! ## Concrete sample data for the witnesses -/

/-- A stand-in for the external bcrypt hash in witnesses. -/
def sampleHash (s : String) : String :=
  String.append "H-" s

/-- A stand-in for the external bcrypt compare in witnesses, agreeing with
`sampleHash`. -/
def sampleCompare (p h : String) : Bool :=
  h == String.append "H-" p

/-- A stand-in for the external `Types.ObjectId.isValid` in witnesses. -/
def sampleIsValid (s : String) : Bool :=
  s.length == 1

/-- Sample stored record. -/
def uAlice : UserRec :=
  { id := "1", username := "alice", password := "H-a", roles := ["user"] }

/-- Second sample stored record. -/
def uBob : UserRec :=
  { id := "2", username := "bob", password := "H-b", roles := ["user"] }

/-! ## Helper lemmas about the store primitives -/

theorem findOne_eq_none_iff (store : List UserRec) (username : String) :
    findOne store username = none ↔ ∀ r ∈ store, r.username ≠ username := by
  simp [findOne, List.find?_eq_none]

theorem username_eq_of_findOne (store : List UserRec) (username : String)
    (u : UserRec) (h : findOne store username = some u) :
    u.username = username := by
  have := List.find?_some h
  simpa using this

theorem mem_of_findOne (store : List UserRec) (username : String)
    (u : UserRec) (h : findOne store username = some u) : u ∈ store :=
  List.mem_of_find?_eq_some h

theorem findOne_eq_of_mem (store : List UserRec) (u : UserRec)
    (hu : u ∈ store) (hnodup : uniqueUsernames store) :
    findOne store u.username = some u := by
  induction store with
  | nil => cases hu
  | cons r rs ih =>
    rcases List.mem_cons.mp hu with h | h
    · subst h
      simp [findOne, List.find?_cons_of_pos]
    · have hr : r.username ≠ u.username := by
        intro heq
        have : r.username ∈ rs.map (fun x => x.username) :=
          heq ▸ List.mem_map_of_mem (fun x => x.username) h
        exact (List.nodup_cons.mp hnodup).1 this
      have htail : uniqueUsernames rs := (List.nodup_cons.mp hnodup).2
      have := ih h htail
      simpa [findOne, List.find?_cons, hr] using this

theorem id_eq_of_findById (store : List UserRec) (id : String)
    (u : UserRec) (h : findById store id = some u) : u.id = id := by
  have := List.find?_some h
  simpa using this

theorem mem_of_findById (store : List UserRec) (id : String)
    (u : UserRec) (h : findById store id = some u) : u ∈ store :=
  List.mem_of_find?_eq_some h

theorem findById_eq_none_iff (store : List UserRec) (id : String) :
    findById store id = none ↔ ∀ r ∈ store, r.id ≠ id := by
  simp [findById, List.find?_eq_none]

theorem findOne_append_of_none (store l : List UserRec) (username : String)
    (h : findOne store username = none) :
    findOne (store ++ l) username = findOne l username := by
  induction store with
  | nil => simp [findOne]
  | cons r rs ih =>
    have hr : (r.username == username) = false := by
      by_contra hcon
      have : r.username = username := by
        cases hb : r.username == username
        · exact absurd hb hcon
        · exact of_decide_eq_true hb
      rw [findOne, List.find?_cons_of_pos] at h
      · cases h
      · simpa using this
    have htail : findOne rs username = none := by
      rw [findOne, List.find?_cons_of_neg] at h
      · exact h
      · simp [hr]
    have := ih htail
    simpa [findOne, List.find?_cons_of_neg, hr] using this

theorem findById_cons (r : UserRec) (rs : List UserRec) (id : String) :
    findById (r :: rs) id = if r.id = id then some r else findById rs id := by
  by_cases h : r.id = id <;> simp [findById, List.find?_cons, h]

theorem findOne_cons (r : UserRec) (rs : List UserRec) (username : String) :
    findOne (r :: rs) username =
      if r.username = username then some r else findOne rs username := by
  by_cases h : r.username = username <;> simp [findOne, List.find?_cons, h]

theorem saveById_cons (r : UserRec) (rs : List UserRec) (id : String)
    (nr : UserRec) :
    saveById (r :: rs) id nr =
      if r.id = id then nr :: rs else r :: saveById rs id nr := by
  by_cases h : r.id = id <;> simp [saveById, h]

theorem saveById_self (store : List UserRec) (id : String) (db : UserRec)
    (h : findById store id = some db) : saveById store id db = store := by
  induction store with
  | nil => simp [saveById]
  | cons r rs ih =>
    rw [findById_cons] at h
    rw [saveById_cons]
    by_cases hrid : r.id = id
    · rw [if_pos hrid] at h
      rw [if_pos hrid, Option.some.inj h]
    · rw [if_neg hrid] at h
      rw [if_neg hrid, ih h]

theorem findById_saveById (store : List UserRec) (id : String)
    (db nr : UserRec) (h : findById store id = some db) (hid : nr.id = id) :
    findById (saveById store id nr) id = some nr := by
  induction store with
  | nil => simp [findById, saveById] at h ⊢
  | cons r rs ih =>
    rw [findById_cons] at h
    rw [saveById_cons]
    by_cases hrid : r.id = id
    · rw [if_pos hrid, findById_cons, if_pos hid]
    · rw [if_neg hrid] at h
      rw [if_neg hrid, findById_cons, if_neg hrid, ih h]

theorem map_username_saveById_eq (store : List UserRec) (id : String)
    (db nr : UserRec) (h : findById store id = some db)
    (hname : nr.username = db.username) :
    (saveById store id nr).map (fun r => r.username) =
      store.map (fun r => r.username) := by
  induction store with
  | nil => simp [saveById]
  | cons r rs ih =>
    rw [findById_cons] at h
    rw [saveById_cons]
    by_cases hrid : r.id = id
    · rw [if_pos hrid] at h
      rw [if_pos hrid]
      simp [hname, Option.some.inj h]
    · rw [if_neg hrid] at h
      simp [if_neg hrid, ih h]

theorem mem_map_username_saveById (store : List UserRec) (id : String)
    (nr : UserRec) (x : String)
    (hx : x ∈ (saveById store id nr).map (fun r => r.username)) :
    x = nr.username ∨ x ∈ store.map (fun r => r.username) := by
  induction store with
  | nil => simp [saveById] at hx
  | cons r rs ih =>
    rw [saveById_cons] at hx
    by_cases hrid : r.id = id
    · rw [if_pos hrid] at hx
      simp only [List.map_cons, List.mem_cons] at hx
      rcases hx with h | h
      · exact Or.inl h
      · exact Or.inr (by simp [List.mem_cons, h])
    · rw [if_neg hrid] at hx
      simp only [List.map_cons, List.mem_cons] at hx
      rcases hx with h | h
      · exact Or.inr (by simp [h])
      · rcases ih h with h' | h'
        · exact Or.inl h'
        · exact Or.inr (by simp [h'])

theorem nodup_saveById_fresh (store : List UserRec) (id : String)
    (nr : UserRec) (hnodup : uniqueUsernames store)
    (hfresh : nr.username ∉ store.map (fun r => r.username)) :
    uniqueUsernames (saveById store id nr) := by
  induction store with
  | nil => simp [uniqueUsernames, saveById]
  | cons r rs ih =>
    have hhead := (List.nodup_cons.mp hnodup).1
    have htail := (List.nodup_cons.mp hnodup).2
    have hfresh' : nr.username ∉ rs.map (fun x => x.username) := by
      intro h
      exact hfresh (by simp [h])
    rw [uniqueUsernames, saveById_cons]
    by_cases hrid : r.id = id
    · rw [if_pos hrid]
      simp only [List.map_cons]
      exact List.nodup_cons.mpr ⟨hfresh', htail⟩
    · rw [if_neg hrid]
      simp only [List.map_cons]
      refine List.nodup_cons.mpr ⟨?_, ih htail hfresh'⟩
      intro hmem
      rcases mem_map_username_saveById rs id nr r.username hmem with h | h
      · exact hfresh (by simp [h])
      · exact hhead h

/-! ## Helper lemmas about the update blocks -/

theorem applyPassword_username (hash : String → String) (password : Option String)
    (u : UserRec) : (applyPassword hash password u).username = u.username := by
  rcases password with _ | p
  · rfl
  · by_cases hp : p ≠ "" <;> simp [applyPassword, hp]

theorem applyPassword_roles (hash : String → String) (password : Option String)
    (u : UserRec) : (applyPassword hash password u).roles = u.roles := by
  rcases password with _ | p
  · rfl
  · by_cases hp : p ≠ "" <;> simp [applyPassword, hp]

theorem applyRoles_username (roles : Option (List String)) (u : UserRec) :
    (applyRoles roles u).username = u.username := by
  rcases roles with _ | rs <;> rfl

theorem applyRoles_password (roles : Option (List String)) (u : UserRec) :
    (applyRoles roles u).password = u.password := by
  rcases roles with _ | rs <;> rfl

theorem applyUsername_ok (store : List UserRec) (userDb : UserRec)
    (username : Option String) (u1 : UserRec)
    (h : applyUsername store userDb username = .ok u1) :
    u1 = userDb ∨ findOne store u1.username = none := by
  rcases username with _ | nu
  · exact Or.inl (Except.ok.inj h).symm
  · by_cases hc : nu ≠ "" ∧ nu ≠ userDb.username
    · rcases hfo : findOne store nu with _ | v
      · simp only [applyUsername, hfo] at h
        rw [if_pos hc] at h
        have hu1 : u1 = { userDb with username := nu } := (Except.ok.inj h).symm
        exact Or.inr (by rw [hu1]; exact hfo)
      · simp only [applyUsername, hfo] at h
        rw [if_pos hc] at h
        cases h
    · simp only [applyUsername] at h
      rw [if_neg hc] at h
      exact Or.inl (Except.ok.inj h).symm

theorem applyUsername_id (store : List UserRec) (userDb : UserRec)
    (username : Option String) (u1 : UserRec)
    (h : applyUsername store userDb username = .ok u1) :
    u1.id = userDb.id ∧ u1.password = userDb.password
      ∧ u1.roles = userDb.roles := by
  rcases username with _ | nu
  · rw [← Except.ok.inj h]
    exact ⟨rfl, rfl, rfl⟩
  · by_cases hc : nu ≠ "" ∧ nu ≠ userDb.username
    · rcases hfo : findOne store nu with _ | v
      · simp only [applyUsername, hfo] at h
        rw [if_pos hc] at h
        rw [← Except.ok.inj h]
        exact ⟨rfl, rfl, rfl⟩
      · simp only [applyUsername, hfo] at h
        rw [if_pos hc] at h
        cases h
    · simp only [applyUsername] at h
      rw [if_neg hc] at h
      rw [← Except.ok.inj h]
      exact ⟨rfl, rfl, rfl⟩

/-- `createUser` preserves the username-uniqueness invariant. -/
theorem createUser_preserves_unique (hash : String → String)
    (store : List UserRec) (newId : String) (cand : Candidate)
    (s' : List UserRec) (log : List String)
    (hok : createUser hash store newId cand = (.ok s', log))
    (hnodup : uniqueUsernames store) : uniqueUsernames s' := by
  rcases hfo : findOne store cand.username with _ | v
  · simp only [createUser, hfo, Prod.mk.injEq, Except.ok.injEq] at hok
    obtain ⟨hs', hlog⟩ := hok
    have hfresh : cand.username ∉ store.map (fun r => r.username) := by
      intro hmem
      rcases List.mem_map.mp hmem with ⟨u, hu, hun⟩
      exact ((findOne_eq_none_iff store cand.username).mp hfo u hu) hun
    rw [← hs', uniqueUsernames, List.map_append]
    simp only [List.map_cons, List.map_nil]
    rw [List.nodup_append]
    refine ⟨hnodup, List.nodup_singleton _, ?_⟩
    intro x hx hx1
    simp only [List.mem_singleton] at hx1
    exact hfresh (hx1 ▸ hx)
  · simp [createUser, hfo] at hok

/-- The shared PUT/PATCH body preserves the username-uniqueness
invariant. -/
theorem updateUserById_preserves_unique (hash : String → String)
    (store : List UserRec) (id : String) (pu : PartialUser)
    (s' : List UserRec) (hok : updateUserById hash store id pu = .ok s')
    (hnodup : uniqueUsernames store) : uniqueUsernames s' := by
  rcases hdb : findById store id with _ | userDb
  · simp [updateUserById, hdb] at hok
  · simp only [updateUserById, hdb] at hok
    rcases hstep : applyUsername store userDb pu.username with e | u1
    · simp [hstep] at hok
    · simp only [hstep] at hok
      set final := applyRoles pu.roles (applyPassword hash pu.password u1) with hfinal
      have hs' : s' = saveById store id final := (Except.ok.inj hok).symm
      have hfu : final.username = u1.username := by
        rw [hfinal, applyRoles_username, applyPassword_username]
      rcases applyUsername_ok store userDb pu.username u1 hstep with heq | hfo
      · have hfn : final.username = userDb.username := by rw [hfu, heq]
        rw [hs', uniqueUsernames,
          map_username_saveById_eq store id userDb final hdb hfn]
        exact hnodup
      · have hfresh : final.username ∉ store.map (fun r => r.username) := by
          rw [hfu]
          intro hmem
          rcases List.mem_map.mp hmem with ⟨w, hw, hwn⟩
          exact ((findOne_eq_none_iff store u1.username).mp hfo w hw) hwn
        rw [hs']
        exact nodup_saveById_fresh store id final hnodup hfresh

/-- PATCH is the PUT logic verbatim. -/
theorem patchUserById_eq_update : patchUserById = updateUserById := rfl

/-! ## Helper lemmas about deletion -/

theorem existsIdDriver_malformed (isValid : String → Bool)
    (store : List UserRec) (id : String) (hval : isValid id = false) :
    existsIdDriver isValid store id = .error .castError := by
  simp [existsIdDriver, hval]

theorem existsIdDriver_absent (isValid : String → Bool)
    (store : List UserRec) (id : String) (hval : isValid id = true)
    (hall : ∀ r ∈ store, r.id ≠ id) :
    existsIdDriver isValid store id = .ok false := by
  have hex : store.any (fun r => r.id == id) = false := by
    rw [List.any_eq_false]
    intro r hr
    simp [hall r hr]
  simp [existsIdDriver, hval, hex]

theorem existsIdDriver_found (isValid : String → Bool)
    (store : List UserRec) (id : String) (hval : isValid id = true)
    (db : UserRec) (hdb : findById store id = some db) :
    existsIdDriver isValid store id = .ok true := by
  have hex : store.any (fun r => r.id == id) = true := by
    rw [List.any_eq_true]
    exact ⟨db, mem_of_findById store id db hdb,
      by simp [id_eq_of_findById store id db hdb]⟩
  simp [existsIdDriver, hval, hex]

theorem findById_deleteById_none (store : List UserRec) (id : String)
    (hids : uniqueIds store) (db : UserRec)
    (hdb : findById store id = some db) :
    findById (deleteById store id) id = none := by
  induction store with
  | nil => simp [findById] at hdb
  | cons r rs ih =>
    have hhead := (List.nodup_cons.mp hids).1
    have htail := (List.nodup_cons.mp hids).2
    rw [findById_cons] at hdb
    by_cases hrid : r.id = id
    · rw [deleteById, List.eraseP_cons_of_pos (by simpa using hrid)]
      rw [findById_eq_none_iff]
      intro x hx hxid
      have hmem : x.id ∈ rs.map (fun r => r.id) :=
        List.mem_map_of_mem (fun r => r.id) hx
      rw [hxid, ← hrid] at hmem
      exact hhead hmem
    · rw [if_neg hrid] at hdb
      rw [deleteById, List.eraseP_cons_of_neg (by simpa using hrid)]
      rw [findById_cons, if_neg hrid]
      exact ih htail hdb

/-! ## Claim theorems -/

/-- C1 (counterexample): the claim says a declared-but-empty required-roles
list allows the request unconditionally, but `RolesGuard.canActivate`
treats an empty declared array as truthy (`!requiredRoles` fails) and
`[].some(...)` is `false`, so the request is rejected even for an
authenticated identity. -/
theorem rolesGuard_emptyList_counterexample :
    canActivate (some []) (some ⟨"1", "alice", some ["user"]⟩) = false := rfl

/-- C1 (amended): for a request whose token check has succeeded, the guard
allows unconditionally when no required-roles metadata is declared at all;
when a list is declared the request is allowed exactly when the identity
holds one of the listed roles — so a non-empty declared list none of whose
roles the identity holds is rejected, and an empty declared list rejects
the request (rather than allowing it unconditionally as claimed). -/
theorem rolesGuard_spec (u : ReqUser) (rls declared : List String)
    (hroles : u.roles = some rls) :
    canActivate none (some u) = true
    ∧ (canActivate (some declared) (some u) = true ↔
        ∃ role ∈ declared, role ∈ rls)
    ∧ (declared = [] → canActivate (some declared) (some u) = false) := by
  refine ⟨rfl, ?_, ?_⟩
  · simp [canActivate, hroles, List.any_eq_true]
  · intro h
    subst h
    simp [canActivate]

/-- C1 witness: a token for role set `["user"]` is rejected on the
admin-only endpoint and accepted where no requirement is declared. -/
theorem rolesGuard_spec_witness :
    canActivate none (some ⟨"1", "bob", some ["user"]⟩) = true
    ∧ (canActivate (some ["admin"]) (some ⟨"1", "bob", some ["user"]⟩) = true
        ↔ ∃ role ∈ ["admin"], role ∈ ["user"])
    ∧ (["admin"] = ([] : List String) →
        canActivate (some ["admin"]) (some ⟨"1", "bob", some ["user"]⟩) =
          false) :=
  rolesGuard_spec ⟨"1", "bob", some ["user"]⟩ ["user"] ["admin"] rfl

/-- C2: for a stored record `u` (under the username-uniqueness invariant)
and any submitted password, `login` succeeds on the lookup alone — the
password argument is never consulted — and the token's claims payload is
exactly `{ sub: u.id, username: u.username, roles: u.roles }`; the identity
`JwtStrategy.validate` reconstructs from it therefore carries `u.id`,
`u.username` (equal to the submitted username) and `u.roles`. -/
theorem login_claims (store : List UserRec) (u : UserRec) (p : String)
    (hu : u ∈ store) (hnodup : uniqueUsernames store) :
    login store u.username p = .ok ⟨u.username, u.id, u.roles⟩
    ∧ jwtValidate ⟨u.username, u.id, u.roles⟩ =
        ⟨u.id, u.username, some u.roles⟩ := by
  have hfo : getUserByUsername store u.username = .ok u := by
    rw [getUserByUsername, findOne_eq_of_mem store u hu hnodup]
  exact ⟨by simp [login, hfo], rfl⟩

/-- C2 witness: a concrete store and a wrong password still yield the
stored record's claims. -/
theorem login_claims_witness :
    login [uAlice] "alice" "wrong-password" = .ok ⟨"alice", "1", ["user"]⟩
    ∧ jwtValidate ⟨"alice", "1", ["user"]⟩ =
        ⟨"1", "alice", some ["user"]⟩ :=
  login_claims [uAlice] uAlice "wrong-password"
    (List.mem_singleton.mpr rfl) (by decide)

/-- C3: `AuthService.validateUser` propagates `NotFound` when no record
with the username exists; when the record exists it returns the
password-less public projection if the bcrypt comparison succeeds, and
`null` if the comparison fails. -/
theorem validateUser_spec (compare : String → String → Bool)
    (store : List UserRec) (username password : String) :
    (findOne store username = none →
      validateUser compare store username password = .error .notFound)
    ∧ (∀ u, findOne store username = some u →
        compare password u.password = true →
        validateUser compare store username password =
          .ok (some (toPublic u)))
    ∧ (∀ u, findOne store username = some u →
        compare password u.password = false →
        validateUser compare store username password = .ok none) := by
  refine ⟨?_, ?_, ?_⟩
  · intro h
    simp [validateUser, getUserByUsername, h]
  · intro u hu hc
    simp [validateUser, getUserByUsername, hu, hc]
  · intro u hu hc
    simp [validateUser, getUserByUsername, hu, hc]

/-- C3 witness: a one-user store; each of the three branches behaves as
stated when its condition is met. -/
theorem validateUser_spec_witness :
    (findOne [uAlice] "alice" = none →
      validateUser sampleCompare [uAlice] "alice" "a" = .error .notFound)
    ∧ (∀ u, findOne [uAlice] "alice" = some u →
        sampleCompare "a" u.password = true →
        validateUser sampleCompare [uAlice] "alice" "a" =
          .ok (some (toPublic u)))
    ∧ (∀ u, findOne [uAlice] "alice" = some u →
        sampleCompare "a" u.password = false →
        validateUser sampleCompare [uAlice] "alice" "a" = .ok none) :=
  validateUser_spec sampleCompare [uAlice] "alice" "a"

/-- C4: when some stored record already carries the candidate's username,
`createUser` raises `Conflict` whatever the candidate's other fields hold;
the returned pair shows no new store is produced and the hash-call log is
empty — the conflict check precedes both the hash and the insert. -/
theorem createUser_conflict (hash : String → String) (store : List UserRec)
    (newId : String) (cand : Candidate) (u : UserRec)
    (hu : u ∈ store) (hname : u.username = cand.username) :
    createUser hash store newId cand = (.error .conflict, []) := by
  rcases hfo : findOne store cand.username with _ | v
  · exact absurd hname ((findOne_eq_none_iff store cand.username).mp hfo u hu)
  · simp [createUser, hfo]

/-- C4 witness: a duplicate username with a different password and an
explicit admin roles list still yields `Conflict` and an empty hash log. -/
theorem createUser_conflict_witness :
    createUser sampleHash [uAlice] "2"
      ⟨"alice", "brand-new", some ["admin"]⟩ = (.error .conflict, []) :=
  createUser_conflict sampleHash [uAlice] "2"
    ⟨"alice", "brand-new", some ["admin"]⟩ uAlice
    (List.mem_singleton.mpr rfl) rfl

/-- C5: starting from a store in which no two records share a username,
each of `createUser`, `updateUserById` (full update) and `patchUserById`
(partial update), whenever it succeeds and produces a new store, preserves
the invariant — each runs its `findOne` uniqueness check before any write
that would introduce a new username. -/
theorem uniqueness_invariant (hash : String → String) (store : List UserRec)
    (newId id id' : String) (cand : Candidate) (pu pu' : PartialUser)
    (hnodup : uniqueUsernames store) :
    (∀ s' log, createUser hash store newId cand = (.ok s', log) →
      uniqueUsernames s')
    ∧ (∀ s', updateUserById hash store id pu = .ok s' → uniqueUsernames s')
    ∧ (∀ s', patchUserById hash store id' pu' = .ok s' →
        uniqueUsernames s') := by
  refine ⟨?_, ?_, ?_⟩
  · intro s' log h
    exact createUser_preserves_unique hash store newId cand s' log h hnodup
  · intro s' h
    exact updateUserById_preserves_unique hash store id pu s' h hnodup
  · intro s' h
    rw [patchUserById_eq_update] at h
    exact updateUserById_preserves_unique hash store id' pu' s' h hnodup

/-- C5 witness: a two-user store with distinct usernames, a fresh create,
a username-changing full update and a username-changing patch. -/
theorem uniqueness_invariant_witness :
    (∀ s' log, createUser sampleHash [uAlice, uBob] "3"
        ⟨"carol", "pw", none⟩ = (.ok s', log) → uniqueUsernames s')
    ∧ (∀ s', updateUserById sampleHash [uAlice, uBob] "1"
        ⟨some "dave", none, none⟩ = .ok s' → uniqueUsernames s')
    ∧ (∀ s', patchUserById sampleHash [uAlice, uBob] "2"
        ⟨some "erin", none, none⟩ = .ok s' → uniqueUsernames s') :=
  uniqueness_invariant sampleHash [uAlice, uBob] "3" "1" "2"
    ⟨"carol", "pw", none⟩ ⟨some "dave", none, none⟩
    ⟨some "erin", none, none⟩ (by decide)

/-- C6 (counterexample): the claim says every record `listAll` exposes at
the HTTP boundary has its password hash redacted, but
`UserController.getAllUsers` serialises the service's full documents — a
store with one record exposes that record's stored password hash
verbatim. -/
theorem listAll_redaction_counterexample :
    ¬ spec_listAll_redacted [uAlice] := by
  decide

/-- C6 (amended): `listAll` exposes the stored records unchanged at the
HTTP boundary — password hashes included, no redaction occurs anywhere on
the path — with status 204 for an empty store and 200 otherwise. -/
theorem listAll_full_records (store : List UserRec) :
    (controllerGetAllUsers store).body = store
    ∧ (store.length = 0 → (controllerGetAllUsers store).status = 204)
    ∧ (store.length ≠ 0 → (controllerGetAllUsers store).status = 200) := by
  by_cases h : store.length = 0
  · refine ⟨?_, fun _ => ?_, fun hn => absurd h hn⟩ <;>
      simp [controllerGetAllUsers, getAllUsers, h]
  · have hb : (store.length == 0) = false := by simpa using h
    refine ⟨?_, fun h0 => absurd h0 h, fun _ => ?_⟩ <;>
      simp [controllerGetAllUsers, getAllUsers, hb]

/-- C6 witness: a one-record store is exposed as-is with status 200. -/
theorem listAll_full_records_witness :
    (controllerGetAllUsers [uAlice]).body = [uAlice]
    ∧ ([uAlice].length = 0 → (controllerGetAllUsers [uAlice]).status = 204)
    ∧ ([uAlice].length ≠ 0 → (controllerGetAllUsers [uAlice]).status = 200) :=
  listAll_full_records [uAlice]

/-- C7: for an existing record, a patch carrying only a roles list
produces exactly the store in which that record's roles are replaced —
username and stored password hash unchanged — and the patched record is
retrievable; a patch whose username equals the record's current username
falls through the username guard yet still reaches `userDb.save()`,
returning the store unchanged through the save write. -/
theorem patch_frame (hash : String → String) (store : List UserRec)
    (id : String) (rs : List String) (db : UserRec)
    (hdb : findById store id = some db) :
    patchUserById hash store id ⟨none, none, some rs⟩ =
      .ok (saveById store id { db with roles := rs })
    ∧ ({ db with roles := rs } : UserRec).username = db.username
    ∧ ({ db with roles := rs } : UserRec).password = db.password
    ∧ findById (saveById store id { db with roles := rs }) id =
        some { db with roles := rs }
    ∧ patchUserById hash store id ⟨some db.username, none, none⟩ =
        .ok store := by
  have hid := id_eq_of_findById store id db hdb
  refine ⟨?_, rfl, rfl, ?_, ?_⟩
  · simp [patchUserById, hdb, applyUsername, applyPassword, applyRoles]
  · exact findById_saveById store id db _ hdb hid
  · have hcond : ¬(db.username ≠ "" ∧ db.username ≠ db.username) := by simp
    have h1 : applyUsername store db (some db.username) = .ok db := by
      simp only [applyUsername]
      rw [if_neg hcond]
    simp [patchUserById, hdb, h1, applyPassword, applyRoles,
      saveById_self store id db hdb]

/-- C7 witness: patching the sample record with only an admin roles list,
and with its own username. -/
theorem patch_frame_witness :
    patchUserById sampleHash [uAlice] "1" ⟨none, none, some ["admin"]⟩ =
      .ok (saveById [uAlice] "1" { uAlice with roles := ["admin"] })
    ∧ ({ uAlice with roles := ["admin"] } : UserRec).username =
        uAlice.username
    ∧ ({ uAlice with roles := ["admin"] } : UserRec).password =
        uAlice.password
    ∧ findById (saveById [uAlice] "1" { uAlice with roles := ["admin"] })
        "1" = some { uAlice with roles := ["admin"] }
    ∧ patchUserById sampleHash [uAlice] "1"
        ⟨some uAlice.username, none, none⟩ = .ok [uAlice] :=
  patch_frame sampleHash [uAlice] "1" ["admin"] uAlice (by decide)

/-- C8 (counterexample): the claim says `delete` fails with `NotFound`
for every id with no matching record, including malformed store
identifiers — but for a malformed id `userModel.exists({ _id: id })`
rejects with a driver `CastError`, and `deleteUserById` (which, unlike
`getUserById`, has no `Types.ObjectId.isValid` guard) lets that fault
propagate instead of raising `NotFoundException`: at the malformed id
`"zz"`, which matches no record, the outcome is the cast fault, not
`NotFound`. -/
theorem deleteUser_malformedId_counterexample :
    (∀ r ∈ [uAlice], r.id ≠ "zz")
    ∧ sampleIsValid "zz" = false
    ∧ deleteUserById sampleIsValid [uAlice] "zz" = .error .castError
    ∧ deleteUserById sampleIsValid [uAlice] "zz" ≠ .error .notFound := by
  refine ⟨by decide, rfl, rfl, fun h => ?_⟩
  rw [show deleteUserById sampleIsValid [uAlice] "zz" =
      .error .castError from rfl] at h
  simp at h

/-- C8 (amended): under unique, well-formed store ids: on a well-formed id
with no matching record, `deleteUserById` fails with `NotFound` and no new
store is produced; on a malformed id the `exists` query's `CastError`
propagates uncaught — the outcome is the cast fault, never `NotFound`; on
the id of an existing record it removes exactly that record — every other
record is kept, no record with the id remains, the store shrinks by one —
and a subsequent `getUserById` with the same id fails with `NotFound`. -/
theorem deleteUser_spec (store : List UserRec) (id : String)
    (isValid : String → Bool) (hids : uniqueIds store)
    (hwf : ∀ r ∈ store, isValid r.id = true) :
    (isValid id = true → (∀ r ∈ store, r.id ≠ id) →
      deleteUserById isValid store id = .error .notFound)
    ∧ (isValid id = false →
        deleteUserById isValid store id = .error .castError
        ∧ deleteUserById isValid store id ≠ .error .notFound)
    ∧ (∀ db, findById store id = some db →
        deleteUserById isValid store id = .ok (deleteById store id)
        ∧ (deleteById store id).length + 1 = store.length
        ∧ (∀ r ∈ store, r.id ≠ id → r ∈ deleteById store id)
        ∧ (∀ r ∈ deleteById store id, r.id ≠ id)
        ∧ getUserById isValid (deleteById store id) id =
            .error .notFound) := by
  refine ⟨?_, ?_, ?_⟩
  · intro hval hall
    simp [deleteUserById, existsIdDriver_absent isValid store id hval hall]
  · intro hval
    have hdrv := existsIdDriver_malformed isValid store id hval
    constructor
    · simp [deleteUserById, hdrv]
    · simp [deleteUserById, hdrv]
  · intro db hdb
    have hmem : db ∈ store := mem_of_findById store id db hdb
    have hdbid : db.id = id := id_eq_of_findById store id db hdb
    have hval : isValid id = true := by
      rw [← hdbid]
      exact hwf db hmem
    have hdrv := existsIdDriver_found isValid store id hval db hdb
    have hnone : findById (deleteById store id) id = none :=
      findById_deleteById_none store id hids db hdb
    refine ⟨by simp [deleteUserById, hdrv], ?_, ?_, ?_, ?_⟩
    · have hlen : (deleteById store id).length = store.length - 1 :=
        List.length_eraseP_of_mem hmem (by simp [hdbid])
      have hpos : 0 < store.length :=
        List.length_pos.mpr (List.ne_nil_of_mem hmem)
      omega
    · intro r hr hrid
      exact (List.mem_eraseP_of_neg (by simp [hrid])).mpr hr
    · intro r hr
      exact (findById_eq_none_iff _ id).mp hnone r hr
    · simp [getUserById, hval, hnone]

/-- C8 witness: a two-record store with well-formed one-character ids,
applying the theorem at a missing well-formed id (`"9"`), a malformed id
(`"zz"`) and an existing id (`"1"`), so each branch is exercised
non-vacuously. -/
theorem deleteUser_spec_witness :
    deleteUserById sampleIsValid [uAlice, uBob] "9" = .error .notFound
    ∧ (deleteUserById sampleIsValid [uAlice, uBob] "zz" = .error .castError
        ∧ deleteUserById sampleIsValid [uAlice, uBob] "zz" ≠
            .error .notFound)
    ∧ (deleteUserById sampleIsValid [uAlice, uBob] "1" =
          .ok (deleteById [uAlice, uBob] "1")
        ∧ (deleteById [uAlice, uBob] "1").length + 1 = [uAlice, uBob].length
        ∧ (∀ r ∈ [uAlice, uBob], r.id ≠ "1" →
            r ∈ deleteById [uAlice, uBob] "1")
        ∧ (∀ r ∈ deleteById [uAlice, uBob] "1", r.id ≠ "1")
        ∧ getUserById sampleIsValid (deleteById [uAlice, uBob] "1") "1" =
            .error .notFound) :=
  ⟨(deleteUser_spec [uAlice, uBob] "9" sampleIsValid (by decide)
      (by decide)).1 rfl (by decide),
   (deleteUser_spec [uAlice, uBob] "zz" sampleIsValid (by decide)
      (by decide)).2.1 rfl,
   (deleteUser_spec [uAlice, uBob] "1" sampleIsValid (by decide)
      (by decide)).2.2 uAlice (by decide)⟩

/-- C9: whenever `createUser` accepts a candidate, `getUserByUsername` on
the resulting store finds the new record, whose stored password is the
hash of the submitted plaintext — and hence differs from the plaintext
whenever the hash function moves its input. -/
theorem create_stores_hash (hash : String → String) (store : List UserRec)
    (newId : String) (cand : Candidate) (s' : List UserRec)
    (log : List String)
    (hok : createUser hash store newId cand = (.ok s', log))
    (hne : hash cand.password ≠ cand.password) :
    ∃ r, getUserByUsername s' cand.username = .ok r
      ∧ r.password = hash cand.password
      ∧ r.password ≠ cand.password := by
  rcases hfo : findOne store cand.username with _ | v
  · simp only [createUser, hfo, Prod.mk.injEq, Except.ok.injEq] at hok
    obtain ⟨hs', -⟩ := hok
    refine ⟨⟨newId, cand.username, hash cand.password, ["user"]⟩, ?_, rfl, hne⟩
    have hfind : findOne s' cand.username =
        some ⟨newId, cand.username, hash cand.password, ["user"]⟩ := by
      rw [← hs', findOne_append_of_none store _ cand.username hfo,
        findOne_cons]
      simp
    simp [getUserByUsername, hfind]
  · simp [createUser, hfo] at hok

/-- C9 witness: creating a fresh user stores the sample hash of the
plaintext, not the plaintext. -/
theorem create_stores_hash_witness :
    ∃ r, getUserByUsername [uAlice, ⟨"2", "carol", sampleHash "pw", ["user"]⟩]
        "carol" = .ok r
      ∧ r.password = sampleHash "pw"
      ∧ r.password ≠ "pw" :=
  create_stores_hash sampleHash [uAlice] "2" ⟨"carol", "pw", none⟩
    [uAlice, ⟨"2", "carol", sampleHash "pw", ["user"]⟩] ["pw"]
    rfl (by decide)

/-- C10: every record `createUser` inserts carries exactly the schema
default roles `["user"]` — the candidate's roles list, even an explicit
`["admin"]`, is discarded: the new store is the old one extended with a
record built only from the candidate's username and hashed password. -/
theorem create_default_roles (hash : String → String) (store : List UserRec)
    (newId : String) (cand : Candidate) (s' : List UserRec)
    (log : List String)
    (hok : createUser hash store newId cand = (.ok s', log)) :
    s' = store ++ [⟨newId, cand.username, hash cand.password, ["user"]⟩] := by
  rcases hfo : findOne store cand.username with _ | v
  · simp only [createUser, hfo, Prod.mk.injEq, Except.ok.injEq] at hok
    exact hok.1.symm
  · simp [createUser, hfo] at hok

/-- C10 witness: a candidate explicitly asking for `["admin"]` is stored
with roles `["user"]`. -/
theorem create_default_roles_witness :
    [uAlice, ⟨"2", "carol", sampleHash "pw", ["user"]⟩] =
      [uAlice] ++ [⟨"2", "carol", sampleHash "pw", ["user"]⟩] :=
  create_default_roles sampleHash [uAlice] "2" ⟨"carol", "pw", some ["admin"]⟩
    [uAlice, ⟨"2", "carol", sampleHash "pw", ["user"]⟩] ["pw"] rfl

end RoleAuth
